import Mathlib

/-!
Verification development for the batch image-branding tool.

The definitions below are a shallow embedding of the repository's live code
path: `App.tsx` (`startProcessing`, `clearAll`), the placement-advisor client
(`getSmartLogoPosition` in `services/geminiService.ts`), and the V2.5 variant
of the compositor (`processProductImage` in `services/imageProcessor.ts`,
the variant that honours `forceSquare`, which is the one `App.tsx` calls).

External host primitives (the network call, `JSON.parse`, image decoding,
JPEG encoding, `JSZip.generateAsync`, `URL.createObjectURL`) are modelled as
oracle inputs; everything the repository's own code does with their results
is embedded faithfully, including JavaScript truthiness, property access on
parsed JSON values, and JSZip's replace-on-collision `file` semantics.
-/

namespace Bulk

/-- A parsed JSON value, as produced by the host's `JSON.parse`. -/
inductive Json where
  | null : Json
  | bool : Bool → Json
  | num : ℚ → Json
  | str : String → Json
  | arr : List Json → Json
  | obj : List (String × Json) → Json

/-- JavaScript truthiness of a parsed JSON value (`undefined` is handled
separately as `Option.none` at use sites). -/
def truthy : Json → Bool
  | .null => false
  | .bool b => b
  | .num q => !(decide (q = 0))
  | .str s => !s.isEmpty
  | .arr _ => true
  | .obj _ => true

/-- First-match field lookup in a parsed JSON object (objects coming out of
`JSON.parse` have unique keys). `none` models JavaScript `undefined`. -/
def lookupField : List (String × Json) → String → Option Json
  | [], _ => none
  | (k', v) :: rest, k => if k' = k then some v else lookupField rest k

/-- JavaScript property access `data.k`: throws a `TypeError` on `null`,
yields the field on objects, and `undefined` on every other value. -/
def jsGetField : Json → String → Except Unit (Option Json)
  | .null, _ => .error ()
  | .obj fs, k => .ok (lookupField fs k)
  | _, _ => .ok none

/-- JavaScript numeric indexing `v[n]`: element of an array, one-character
string of a string, string-keyed lookup on an object, `undefined` otherwise. -/
def jsIndex : Json → Nat → Option Json
  | .arr xs, n => xs.get? n
  | .str s, n => (s.toList.get? n).map (fun c => .str (String.mk [c]))
  | .obj fs, n => lookupField fs (toString n)
  | _, _ => none

/-- The runtime shape of the bounding box the client builds from
`data.boundingBox[0..3]`; each component may be `undefined`. -/
structure JsBBox where
  ymin : Option Json
  xmin : Option Json
  ymax : Option Json
  xmax : Option Json

/-- The runtime shape of the client's return value (`SmartPlacement` in
`types.ts`). `position` is whatever string the code assembles; `padding`
is whatever JSON value `data.padding || 50` produces. -/
structure SmartPlacement where
  position : String
  padding : Json
  boundingBox : Option JsBBox

/-- Embeds `data.position?.toLowerCase()`: `undefined` when the field is
absent or `null`, the lower-cased string when it is a string, and a thrown
`TypeError` when it is any other value (no `toLowerCase` method). -/
def positionString (data : Json) : Except Unit (Option String) := do
  let f ← jsGetField data ("position")
  match f with
  | none => .ok none
  | some .null => .ok none
  | some (.str s) => .ok (some s.toLower)
  | some _ => .error ()

/-- Embeds `data.padding || 50`: the parsed value when truthy, else `50`. -/
def paddingJson (data : Json) : Except Unit Json := do
  let f ← jsGetField data ("padding")
  match f with
  | some v => .ok (if truthy v then v else .num 50)
  | none => .ok (.num 50)

/-- Embeds `data.boundingBox ? \x7bymin: data.boundingBox[0], ...\x7d : undefined`. -/
def boundingBoxJson (data : Json) : Except Unit (Option JsBBox) := do
  let f ← jsGetField data ("boundingBox")
  match f with
  | some v =>
      .ok (if truthy v then
        some ⟨jsIndex v 0, jsIndex v 1, jsIndex v 2, jsIndex v 3⟩
      else none)
  | none => .ok none

/-- Embeds `x || 'bottom-right'` applied to the (possibly `undefined`)
lower-cased position string: the empty string is falsy. -/
def positionOrDefault : Option String → String
  | some s => if s.isEmpty then "bottom-right" else s
  | none => "bottom-right"

/-- The body of the inner `try` of `getSmartLogoPosition`, lines 58-67 of
the client: builds the placement from parsed data, propagating any thrown
`TypeError` (to be caught by the inner `catch`). -/
def adviseFromData (data : Json) : Except Unit SmartPlacement := do
  let posOpt ← positionString data
  let pad ← paddingJson data
  let bb ← boundingBoxJson data
  .ok { position := positionOrDefault posOpt, padding := pad, boundingBox := bb }

/-- The deterministic fallback `\x7b position: 'bottom-right', padding: 50 \x7d`. -/
def fallbackPlacement : SmartPlacement :=
  { position := "bottom-right", padding := .num 50, boundingBox := none }

/-- Outcome of `JSON.parse(response.text || "\x7b\x7d")`: either the parse threw,
or it produced a JSON value. -/
inductive ParseOutcome where
  | parseFail : ParseOutcome
  | parseOk : Json → ParseOutcome

/-- Environment oracle for one advisor call: the outer request either throws
(network error, timeout, API error) or yields a response whose text parses
per `ParseOutcome`. -/
inductive AdvisorEnv where
  | requestFail : AdvisorEnv
  | requestOk : ParseOutcome → AdvisorEnv

/-- Embeds `getSmartLogoPosition` (services/geminiService.ts): the outer
`catch` absorbs request failures, the inner `catch` absorbs parse failures
and any exception thrown while reading the parsed fields; both return the
fixed fallback. -/
def getSmartLogoPosition : AdvisorEnv → SmartPlacement
  | .requestFail => fallbackPlacement
  | .requestOk .parseFail => fallbackPlacement
  | .requestOk (.parseOk data) =>
      match adviseFromData data with
      | .ok p => p
      | .error _ => fallbackPlacement

/-! ### Compositor (`processProductImage`, imageProcessor.ts V2.5 variant)

The compositor's canvas calls are embedded as a drawing plan: output canvas
dimensions, the white background fill, and the three `drawImage` rectangles
(source, central watermark, corner logo) with their alpha.  Decoding and
JPEG encoding are host primitives and are abstracted away; the geometry is
computed exactly as the source does, over exact rationals. -/

/-- Decoded pixel dimensions of an image (`img.width`/`img.height`). -/
structure ImgDims where
  width : ℕ
  height : ℕ

/-- `ProcessingOptions` from `types.ts` (live variant): `brandLogo` is the
decoded logo's dimensions when a logo is supplied; `forceSquare` is an
optional flag whose destructuring default in the compositor is `true`. -/
structure ProcOptions where
  brandLogo : Option ImgDims
  watermarkOpacity : ℚ
  quality : ℚ
  logoPadding : ℚ
  forceSquare : Option Bool

/-- One `ctx.drawImage(img, x, y, w, h)` call together with the
`globalAlpha` in force when it executes. -/
structure DrawnImage where
  x : ℚ
  y : ℚ
  w : ℚ
  h : ℚ
  alpha : ℚ
  deriving DecidableEq

/-- The observable drawing plan of one `processProductImage` call. -/
structure ComposePlan where
  outWidth : ℕ
  outHeight : ℕ
  whiteBackground : Option (ℚ × ℚ × ℚ × ℚ)
  sourceDraw : DrawnImage
  watermarkDraw : Option DrawnImage
  cornerDraw : Option DrawnImage

/-- The corner-pass position `switch` of the compositor: `cX`/`cY` start at
`padding` (the `top-left` default) and the four named cases override them. -/
def cornerXY (position : String) (w h cw ch padding : ℚ) : ℚ × ℚ :=
  if position = "top-right" then (w - cw - padding, padding)
  else if position = "bottom-left" then (padding, h - ch - padding)
  else if position = "bottom-right" then (w - cw - padding, h - ch - padding)
  else if position = "center" then ((w - cw) / 2, (h - ch) / 2)
  else (padding, padding)

/-- Embeds `processProductImage` (V2.5): output dimensions, background fit,
watermark pass (80% width, 0.40 alpha) and corner pass (25% width, padding
scaled by `outWidth / 1000` from `options.logoPadding`). -/
def processProductImage (src : ImgDims) (placement : SmartPlacement)
    (options : ProcOptions) : ComposePlan :=
  let forceSquare := options.forceSquare.getD true
  let outW : ℕ := if forceSquare then max src.width src.height else src.width
  let outH : ℕ := if forceSquare then max src.width src.height else src.height
  let w : ℚ := (outW : ℚ)
  let h : ℚ := (outH : ℚ)
  let sourceDraw : DrawnImage :=
    if forceSquare then
      let scale : ℚ := min (w / (src.width : ℚ)) (h / (src.height : ℚ))
      { x := (w - (src.width : ℚ) * scale) / 2
        y := (h - (src.height : ℚ) * scale) / 2
        w := (src.width : ℚ) * scale
        h := (src.height : ℚ) * scale
        alpha := 1 }
    else
      { x := 0, y := 0, w := w, h := h, alpha := 1 }
  let logoDraws : Option (DrawnImage × DrawnImage) :=
    options.brandLogo.map (fun logo =>
      let wmWidth := w * (8 / 10)
      let wmHeight := ((logo.height : ℚ) / (logo.width : ℚ)) * wmWidth
      let watermark : DrawnImage :=
        { x := (w - wmWidth) / 2, y := (h - wmHeight) / 2
          w := wmWidth, h := wmHeight, alpha := 40 / 100 }
      let cWidth := w * (25 / 100)
      let cHeight := ((logo.height : ℚ) / (logo.width : ℚ)) * cWidth
      let scaleFactor := w / 1000
      let padding := options.logoPadding * scaleFactor
      let pos := cornerXY placement.position w h cWidth cHeight padding
      let corner : DrawnImage :=
        { x := pos.1, y := pos.2, w := cWidth, h := cHeight, alpha := 1 }
      (watermark, corner))
  { outWidth := outW
    outHeight := outH
    whiteBackground := if forceSquare then some (0, 0, w, h) else none
    sourceDraw := sourceDraw
    watermarkDraw := logoDraws.map Prod.fst
    cornerDraw := logoDraws.map Prod.snd }

/-- The corner-offset formula table exactly as the specification states it
for claim C5: padding is `placement.paddingPixels` scaled by `W / 1000`.
(Second definition for refinement comparison; written from the spec's words,
not from the source.) -/
def specCornerXY (corner : String) (w h cw ch paddingPixels : ℚ) : ℚ × ℚ :=
  let padding := paddingPixels * (w / 1000)
  if corner = "top-left" then (padding, padding)
  else if corner = "top-right" then (w - cw - padding, padding)
  else if corner = "bottom-left" then (padding, h - ch - padding)
  else if corner = "bottom-right" then (w - cw - padding, h - ch - padding)
  else ((w - cw) / 2, (h - ch) / 2)

/-! ### Batch orchestrator (`startProcessing` / `clearAll` in App.tsx)

The per-item pipeline body is a `try` block whose only fallible awaited
steps, after the advisor call (which never throws, see above), are inside
`processProductImage` — image decode failure or an unavailable canvas
context.  Each gallery item therefore carries an oracle for that call:
`none` models a throw, `some (fullRes, thumb)` a successful return.  The
advisor's result for the item is likewise supplied by the oracle (its own
internals are modelled separately above). -/

/-- `ProcessingState.status` from `types.ts`. -/
inductive Status where
  | pending | analyzing | processing | completed | error
  deriving DecidableEq

/-- `ProcessingState` from `types.ts` (the `error` field is `errorMsg`
here since `error` is taken by `Except`). -/
structure ItemState where
  id : String
  name : String
  status : Status
  progress : ℕ
  resultUrl : Option String
  errorMsg : Option String
  placement : Option SmartPlacement

/-- One gallery item together with the environment oracle for its run:
its file name, the object URL `URL.createObjectURL(file)` returns for it,
the placement the advisor call yields, and the compositor outcome. -/
structure InputItem where
  name : String
  sourceUrl : String
  placement : SmartPlacement
  comp : Option (String × String)

/-- Observable scheduling events of a run: an item becomes current and
starts its pipeline, an item reaches a terminal state (`ok` = completed),
and the artificial 100 ms yield to the browser main thread. -/
inductive Event where
  | enter : ℕ → Event
  | exit : ℕ → Bool → Event
  | yieldEv : Event
  deriving DecidableEq

/-- Whether the item's pipeline completes (its compositor call returns). -/
def itemOk (it : InputItem) : Bool := it.comp.isSome

/-- The yield guard `i % batchSize === 0` under JavaScript semantics:
`i % 0` is `NaN`, which is never `=== 0`. -/
def yieldGuard (i batchSize : ℕ) : Bool :=
  !(decide (batchSize = 0)) && decide (i % batchSize = 0)

/-- The events item `i` emits: it starts, reaches a terminal state, and —
only on the success path, since the yield sits at the end of the `try`
block — yields when `i % batchSize === 0`. -/
def itemEvents (batchSize i : ℕ) (it : InputItem) : List Event :=
  [Event.enter i, Event.exit i (itemOk it)] ++
    (if itemOk it && yieldGuard i batchSize then [Event.yieldEv] else [])

/-- Final `ProcessingState` of item `i` after its iteration: on success the
`completed`/100 update with the thumbnail; on a compositor throw the `catch`
block's `error`/`Skipped`/0 update.  The placement was attached before the
only fallible step, so it is present either way. -/
def finalItemState (i : ℕ) (it : InputItem) : ItemState :=
  match it.comp with
  | some (_, thumb) =>
      { id := it.name ++ "-" ++ toString i, name := it.name
        status := .completed, progress := 100
        resultUrl := some thumb, errorMsg := none
        placement := some it.placement }
  | none =>
      { id := it.name ++ "-" ++ toString i, name := it.name
        status := .error, progress := 0
        resultUrl := none, errorMsg := some ("Skipped")
        placement := some it.placement }

/-- The archive entry name: `file.name.split('.')[0] + "_1x1_HD.jpg"` —
the characters before the first dot, or the whole name if it has none. -/
def stemChars : List Char → List Char
  | [] => []
  | c :: cs => if c = '.' then [] else c :: stemChars cs

/-- Deterministic archive name derived from the original file name. -/
def archiveName (name : String) : String :=
  String.mk (stemChars name.toList) ++ "_1x1_HD.jpg"

/-- The characters up to (excluding) the next comma. -/
def untilComma : List Char → List Char
  | [] => []
  | c :: cs => if c = ',' then [] else c :: untilComma cs

/-- The characters strictly between the first comma and the one after it,
if a first comma exists. -/
def afterComma : List Char → Option (List Char)
  | [] => none
  | c :: cs => if c = ',' then some (untilComma cs) else afterComma cs

/-- `fullRes.split(',')[1]`: the base64 payload of the data URL (JavaScript
`undefined`, for a comma-less string, is modelled as the empty payload; no
claim inspects that case). -/
def base64Part (s : String) : String :=
  match afterComma s.toList with
  | some cs => String.mk cs
  | none => ""

/-- JSZip's `zip.file(name, content)`: replaces an existing entry of the
same name, otherwise appends a new one. -/
def zipFile (entries : List (String × String)) (name content : String) :
    List (String × String) :=
  if entries.any (fun e => e.1 = name) then
    entries.map (fun e => if e.1 = name then (name, content) else e)
  else entries ++ [(name, content)]

/-- Everything one run accumulates: the final per-item states, the archive
sink's entries, the object URLs the loop revoked, and the event trace. -/
structure RunOut where
  states : List ItemState
  zip : List (String × String)
  revokedSrc : List String
  trace : List Event

/-- The sequential `for` loop of `startProcessing`, items numbered from
`i`: each iteration runs the per-item pipeline to its terminal state (the
`try`/`catch` guarantees this) before the next begins; a completed item
files its full-resolution payload into the zip and has its source object
URL revoked. -/
def runAux (batchSize : ℕ) : ℕ → List InputItem → List (String × String) → RunOut
  | _, [], z => { states := [], zip := z, revokedSrc := [], trace := [] }
  | i, it :: rest, z =>
      let z' := match it.comp with
        | some (fullRes, _) => zipFile z (archiveName it.name) (base64Part fullRes)
        | none => z
      let r := runAux batchSize (i + 1) rest z'
      { states := finalItemState i it :: r.states
        zip := r.zip
        revokedSrc := (match it.comp with
          | some _ => [it.sourceUrl]
          | none => []) ++ r.revokedSrc
        trace := itemEvents batchSize i it ++ r.trace }

/-- The event trace of a whole run. -/
def runTrace (batchSize : ℕ) (items : List InputItem) : List Event :=
  (runAux batchSize 0 items []).trace

/-- JavaScript falsiness of a nullable string (`!brandLogo`,
`!process.env.API_KEY`): absent or empty. -/
def strFalsy : Option String → Bool
  | none => true
  | some s => s.isEmpty

/-- The App component's state, restricted to what `startProcessing` and
`clearAll` read or write, plus a ledger of revoked object URLs (to make
resource release observable) and of alerts raised. -/
structure AppState where
  images : List InputItem
  brandLogo : Option String
  batchSize : ℕ
  zipUrl : Option String
  processStates : List ItemState
  isProcessing : Bool
  currentIdx : ℤ
  revoked : List String
  alerts : List String

/-- The alert `startProcessing` raises when the ambient API key is absent. -/
def apiKeyAlert : String :=
  "System Error: GOOGLE_API_KEY is not configured in environment."

/-- Embeds `startProcessing`: the two guard clauses, then the run — item
states initialised to `pending` and driven to their terminal states by the
loop (`runAux`), the zip finalised (`zipGen` is the oracle for
`generateAsync` + `createObjectURL`: `none` models finalization failure,
in which case `zipUrl` keeps the `null` set at the start of the run).
Returns the new state and the run's event trace.  Note that the previous
`zipUrl` is overwritten without any `URL.revokeObjectURL` call — only the
per-item source URLs of completed items are revoked. -/
def startProcessing (apiKey : Option String) (zipGen : Option String)
    (s : AppState) : AppState × List Event :=
  if s.images.length = 0 || strFalsy s.brandLogo then (s, [])
  else if strFalsy apiKey then
    ({ s with alerts := s.alerts ++ [apiKeyAlert] }, [])
  else
    let r := runAux s.batchSize 0 s.images []
    ({ s with
        processStates := r.states
        zipUrl := zipGen
        revoked := s.revoked ++ r.revokedSrc
        isProcessing := false
        currentIdx := -1 }, r.trace)

/-- Embeds `clearAll`: revokes the archive handle's object URL if one
exists, then resets the gallery, the item states and the handle. -/
def clearAll (s : AppState) : AppState :=
  { s with
      images := []
      processStates := []
      zipUrl := none
      currentIdx := -1
      revoked := s.revoked ++ (match s.zipUrl with
        | some u => [u]
        | none => []) }

/-- The item index of a terminal event. -/
def exitIdx : Event → Option ℕ
  | .exit i _ => some i
  | _ => none

/-- The item index of a pipeline-start event. -/
def enterIdx : Event → Option ℕ
  | .enter i => some i
  | _ => none

/-- Whether an event is the terminal event of item `i`. -/
def isExitOf : Event → ℕ → Bool
  | .exit j _, i => decide (j = i)
  | _, _ => false

/-- Whether an event is the cooperative yield. -/
def isYield : Event → Bool
  | .yieldEv => true
  | _ => false

/-- Whether, somewhere in the trace, the terminal event of item `i` is
immediately followed by a yield (scanning adjacent pairs). -/
def yieldAfter : List Event → ℕ → Bool
  | a :: b :: rest, i => (isExitOf a i && isYield b) || yieldAfter (b :: rest) i
  | _, _ => false

/-- The archive names of the items that reach `completed`, in run order. -/
def completedArchiveNames (items : List InputItem) : List String :=
  (items.filter (fun it => itemOk it)).map (fun it => archiveName it.name)

/-- One archive entry per completed item, in run order: the deterministic
name paired with the base64 payload of its full-resolution data URL. -/
def completedEntries (items : List InputItem) : List (String × String) :=
  items.filterMap (fun it => it.comp.map (fun v => (archiveName it.name, base64Part v.1)))

/-! ## Theorems -/

/-- When the square side is `max w h`, the contain-fit scale
`min(outW/w, outH/h)` is exactly `1`: forcing a square only pads, it never
rescales the source. -/
theorem fitScale_eq_one (w h : ℕ) (hw : 0 < w) (hh : 0 < h) :
    min (((max w h : ℕ) : ℚ) / (w : ℚ)) (((max w h : ℕ) : ℚ) / (h : ℚ)) = 1 := by
  have hw' : (0 : ℚ) < (w : ℚ) := by exact_mod_cast hw
  have hh' : (0 : ℚ) < (h : ℚ) := by exact_mod_cast hh
  rcases le_total w h with hle | hle
  · rw [max_eq_right hle]
    have h1 : (h : ℚ) / (h : ℚ) = 1 := div_self hh'.ne'
    have h2 : (1 : ℚ) ≤ (h : ℚ) / (w : ℚ) := by
      rw [le_div_iff₀ hw', one_mul]
      exact_mod_cast hle
    rw [h1, min_eq_right h2]
  · rw [max_eq_left hle]
    have h1 : (w : ℚ) / (w : ℚ) = 1 := div_self hw'.ne'
    have h2 : (1 : ℚ) ≤ (w : ℚ) / (h : ℚ) := by
      rw [le_div_iff₀ hh', one_mul]
      exact_mod_cast hle
    rw [h1, min_eq_left h2]

/-- C4: when `forceSquare` (default `true`) holds, the output canvas is the
square of side `max(sourceWidth, sourceHeight)`, filled white, with the
source drawn aspect-preserving, within bounds, touching the square on at
least one axis, and centered; without `forceSquare` the output dimensions
equal the source dimensions and the source is drawn full-frame at the
origin. -/
theorem claim_C4 (src : ImgDims) (placement : SmartPlacement) (o : ProcOptions) :
    (o.forceSquare.getD true = true → 0 < src.width → 0 < src.height →
      (processProductImage src placement o).outWidth = max src.width src.height ∧
      (processProductImage src placement o).outHeight = max src.width src.height ∧
      (processProductImage src placement o).whiteBackground =
        some (0, 0, ((max src.width src.height : ℕ) : ℚ),
          ((max src.width src.height : ℕ) : ℚ)) ∧
      (processProductImage src placement o).sourceDraw.w * (src.height : ℚ) =
        (processProductImage src placement o).sourceDraw.h * (src.width : ℚ) ∧
      (processProductImage src placement o).sourceDraw.w ≤
        ((max src.width src.height : ℕ) : ℚ) ∧
      (processProductImage src placement o).sourceDraw.h ≤
        ((max src.width src.height : ℕ) : ℚ) ∧
      ((processProductImage src placement o).sourceDraw.w =
          ((max src.width src.height : ℕ) : ℚ) ∨
        (processProductImage src placement o).sourceDraw.h =
          ((max src.width src.height : ℕ) : ℚ)) ∧
      (processProductImage src placement o).sourceDraw.x =
        (((max src.width src.height : ℕ) : ℚ) -
          (processProductImage src placement o).sourceDraw.w) / 2 ∧
      (processProductImage src placement o).sourceDraw.y =
        (((max src.width src.height : ℕ) : ℚ) -
          (processProductImage src placement o).sourceDraw.h) / 2) ∧
    (o.forceSquare.getD true = false →
      (processProductImage src placement o).outWidth = src.width ∧
      (processProductImage src placement o).outHeight = src.height ∧
      (processProductImage src placement o).sourceDraw =
        { x := 0, y := 0, w := (src.width : ℚ), h := (src.height : ℚ), alpha := 1 }) := by
  constructor
  · intro hf hw hh
    have hscale := fitScale_eq_one src.width src.height hw hh
    refine ⟨?_, ?_, ?_, ?_, ?_, ?_, ?_, ?_, ?_⟩ <;>
      simp only [processProductImage, hf, if_true, hscale, mul_one]
    · ring
    · exact_mod_cast le_max_left src.width src.height
    · exact_mod_cast le_max_right src.width src.height
    · rcases le_total src.height src.width with hle | hle
      · exact Or.inl (by rw [max_eq_left hle])
      · exact Or.inr (by rw [max_eq_right hle])
  · intro hf
    refine ⟨?_, ?_, ?_⟩ <;>
      simp only [processProductImage, hf, Bool.false_eq_true, if_false]

/-- Witness for C4 at a concrete 300×200 source with `forceSquare = true`. -/
theorem claim_C4_witness :
    0 < (300 : ℕ) ∧ 0 < (200 : ℕ) ∧
    ((processProductImage ⟨300, 200⟩ fallbackPlacement
        ⟨none, 2 / 5, 1, 50, some true⟩).outWidth = max 300 200 ∧
      (processProductImage ⟨300, 200⟩ fallbackPlacement
        ⟨none, 2 / 5, 1, 50, some true⟩).outHeight = max 300 200 ∧
      (processProductImage ⟨300, 200⟩ fallbackPlacement
        ⟨none, 2 / 5, 1, 50, some true⟩).whiteBackground =
        some (0, 0, ((max 300 200 : ℕ) : ℚ), ((max 300 200 : ℕ) : ℚ)) ∧
      (processProductImage ⟨300, 200⟩ fallbackPlacement
        ⟨none, 2 / 5, 1, 50, some true⟩).sourceDraw.w * ((200 : ℕ) : ℚ) =
        (processProductImage ⟨300, 200⟩ fallbackPlacement
          ⟨none, 2 / 5, 1, 50, some true⟩).sourceDraw.h * ((300 : ℕ) : ℚ) ∧
      (processProductImage ⟨300, 200⟩ fallbackPlacement
        ⟨none, 2 / 5, 1, 50, some true⟩).sourceDraw.w ≤ ((max 300 200 : ℕ) : ℚ) ∧
      (processProductImage ⟨300, 200⟩ fallbackPlacement
        ⟨none, 2 / 5, 1, 50, some true⟩).sourceDraw.h ≤ ((max 300 200 : ℕ) : ℚ) ∧
      ((processProductImage ⟨300, 200⟩ fallbackPlacement
          ⟨none, 2 / 5, 1, 50, some true⟩).sourceDraw.w = ((max 300 200 : ℕ) : ℚ) ∨
        (processProductImage ⟨300, 200⟩ fallbackPlacement
          ⟨none, 2 / 5, 1, 50, some true⟩).sourceDraw.h = ((max 300 200 : ℕ) : ℚ)) ∧
      (processProductImage ⟨300, 200⟩ fallbackPlacement
        ⟨none, 2 / 5, 1, 50, some true⟩).sourceDraw.x =
        (((max 300 200 : ℕ) : ℚ) - (processProductImage ⟨300, 200⟩ fallbackPlacement
          ⟨none, 2 / 5, 1, 50, some true⟩).sourceDraw.w) / 2 ∧
      (processProductImage ⟨300, 200⟩ fallbackPlacement
        ⟨none, 2 / 5, 1, 50, some true⟩).sourceDraw.y =
        (((max 300 200 : ℕ) : ℚ) - (processProductImage ⟨300, 200⟩ fallbackPlacement
          ⟨none, 2 / 5, 1, 50, some true⟩).sourceDraw.h) / 2) :=
  ⟨by decide, by decide,
    (claim_C4 ⟨300, 200⟩ fallbackPlacement ⟨none, 2 / 5, 1, 50, some true⟩).1
      rfl (by decide) (by decide)⟩

/-- C5 as stated is false: the corner-pass offset is computed from
`options.logoPadding`, not from `placement.paddingPixels`.  Concretely, on a
1000×1000 source with a 500×250 logo, `placement.padding = 40` and
`options.logoPadding = 50`, the code draws the bottom-right corner logo at
(700, 825) while the claim's formula with `placement.paddingPixels = 40`
predicts (710, 835). -/
theorem claim_C5_counterexample :
    (processProductImage ⟨1000, 1000⟩ ⟨"bottom-right", Json.num 40, none⟩
        ⟨some ⟨500, 250⟩, 2 / 5, 1, 50, some true⟩).cornerDraw =
      some ⟨700, 825, 250, 125, 1⟩ ∧
    specCornerXY ("bottom-right") 1000 1000 250 125 40 = (710, 835) ∧
    ((700 : ℚ), (825 : ℚ)) ≠ ((710 : ℚ), (835 : ℚ)) := by
  refine ⟨?_, ?_, by decide⟩
  · simp only [processProductImage, cornerXY, Option.map_some']
    norm_num
    decide
  · norm_num [specCornerXY]
    decide

/-- C5 amended: the corner-pass logo is scaled to 25% of the output width
with proportional height and drawn at full opacity at the claimed per-corner
offset formulas, but with the padding taken from `options.logoPadding`
(scaled by `outputWidth / 1000`); `placement.paddingPixels` is ignored. -/
theorem claim_C5 (src : ImgDims) (placement : SmartPlacement) (o : ProcOptions)
    (logo : ImgDims) (hl : o.brandLogo = some logo) :
    (let p := processProductImage src placement o
     let w : ℚ := (p.outWidth : ℚ)
     let h : ℚ := (p.outHeight : ℚ)
     let cw := w * (25 / 100)
     let ch := ((logo.height : ℚ) / (logo.width : ℚ)) * cw
     let pad := o.logoPadding * (w / 1000)
     p.cornerDraw = some ⟨(cornerXY placement.position w h cw ch pad).1,
       (cornerXY placement.position w h cw ch pad).2, cw, ch, 1⟩) ∧
    (∀ w h cw ch pad : ℚ,
      (placement.position = "top-left" →
        cornerXY placement.position w h cw ch pad = (pad, pad)) ∧
      (placement.position = "top-right" →
        cornerXY placement.position w h cw ch pad = (w - cw - pad, pad)) ∧
      (placement.position = "bottom-left" →
        cornerXY placement.position w h cw ch pad = (pad, h - ch - pad)) ∧
      (placement.position = "bottom-right" →
        cornerXY placement.position w h cw ch pad = (w - cw - pad, h - ch - pad)) ∧
      (placement.position = "center" →
        cornerXY placement.position w h cw ch pad = ((w - cw) / 2, (h - ch) / 2))) := by
  constructor
  · simp only [processProductImage, hl, Option.map_some']
  · intro w h cw ch pad
    refine ⟨?_, ?_, ?_, ?_, ?_⟩ <;> intro hp <;> rw [hp] <;> simp [cornerXY]

/-- Witness for C5 at a concrete input with a brand logo supplied. -/
theorem claim_C5_witness :
    (ProcOptions.mk (some ⟨500, 250⟩) (2 / 5) 1 50 (some true)).brandLogo =
      some ⟨500, 250⟩ ∧
    (let p := processProductImage ⟨1000, 1000⟩ ⟨"bottom-right", Json.num 40, none⟩
        ⟨some ⟨500, 250⟩, 2 / 5, 1, 50, some true⟩
     let w : ℚ := (p.outWidth : ℚ)
     let h : ℚ := (p.outHeight : ℚ)
     let cw := w * (25 / 100)
     let ch := (((250 : ℕ) : ℚ) / ((500 : ℕ) : ℚ)) * cw
     let pad := (50 : ℚ) * (w / 1000)
     p.cornerDraw = some ⟨(cornerXY ("bottom-right") w h cw ch pad).1,
       (cornerXY ("bottom-right") w h cw ch pad).2, cw, ch, 1⟩) :=
  ⟨rfl, (claim_C5 ⟨1000, 1000⟩ ⟨"bottom-right", Json.num 40, none⟩
      ⟨some ⟨500, 250⟩, 2 / 5, 1, 50, some true⟩ ⟨500, 250⟩ rfl).1⟩

/-- C3 as stated is false for a schema-mismatched but parseable response:
on the parsed response `\x7b"boundingBox": [100, 200, 300, 400]\x7d` — which
violates the declared schema, missing the required `position` and `padding`
fields — the client does not return the fallback with no bounding box: it
substitutes the missing fields individually and keeps the parsed bounding
box. -/
theorem claim_C3_counterexample :
    getSmartLogoPosition (.requestOk (.parseOk (.obj
        [(("boundingBox"), Json.arr
          [Json.num 100, Json.num 200, Json.num 300, Json.num 400])]))) ≠
      fallbackPlacement ∧
    (getSmartLogoPosition (.requestOk (.parseOk (.obj
        [(("boundingBox"), Json.arr
          [Json.num 100, Json.num 200, Json.num 300, Json.num 400])])))).position =
      "bottom-right" ∧
    (getSmartLogoPosition (.requestOk (.parseOk (.obj
        [(("boundingBox"), Json.arr
          [Json.num 100, Json.num 200, Json.num 300, Json.num 400])])))).padding =
      Json.num 50 ∧
    (getSmartLogoPosition (.requestOk (.parseOk (.obj
        [(("boundingBox"), Json.arr
          [Json.num 100, Json.num 200, Json.num 300, Json.num 400])])))).boundingBox =
      some ⟨some (Json.num 100), some (Json.num 200),
        some (Json.num 300), some (Json.num 400)⟩ ∧
    fallbackPlacement.boundingBox = none := by
  refine ⟨?_, rfl, rfl, rfl, rfl⟩
  intro hcontra
  exact Option.noConfusion (congrArg SmartPlacement.boundingBox hcontra)

/-- C3 amended: the client never throws; on a thrown request failure
(network error, timeout) or an unparseable response text it returns exactly
the fallback `\x7bbottom-right, 50\x7d` with no bounding box, and the same holds
whenever reading the parsed fields itself throws; but a response that
parses as JSON is field-substituted individually, so a parsed bounding box
can survive (see the counterexample). -/
theorem claim_C3 :
    getSmartLogoPosition .requestFail = fallbackPlacement ∧
    getSmartLogoPosition (.requestOk .parseFail) = fallbackPlacement ∧
    (∀ data : Json, adviseFromData data = .error () →
      getSmartLogoPosition (.requestOk (.parseOk data)) = fallbackPlacement) := by
  refine ⟨rfl, rfl, ?_⟩
  intro data herr
  simp only [getSmartLogoPosition, herr]

/-- Witness for C3's hypothesis: reading the fields of the parsed response
`null` throws (`null.position` is a `TypeError`), and the client indeed
falls back. -/
theorem claim_C3_witness :
    adviseFromData Json.null = .error () ∧
    getSmartLogoPosition (.requestOk (.parseOk Json.null)) = fallbackPlacement :=
  ⟨rfl, claim_C3.2.2 Json.null rfl⟩

/-- C10: on a parsed response object, falsy fields are substituted
individually rather than wholesale: a parsed `padding` of `0` (falsy)
becomes `50`, a missing `position` becomes `bottom-right`, and a truthy
parsed `boundingBox` is retained (componentwise via `[0]`..`[3]`). -/
theorem claim_C10 (fs : List (String × Json)) (bb : Json)
    (hpos : lookupField fs ("position") = none)
    (hpad : lookupField fs ("padding") = some (Json.num 0))
    (hbb : lookupField fs ("boundingBox") = some bb)
    (htruthy : truthy bb = true) :
    getSmartLogoPosition (.requestOk (.parseOk (.obj fs))) =
      { position := "bottom-right", padding := Json.num 50,
        boundingBox := some ⟨jsIndex bb 0, jsIndex bb 1, jsIndex bb 2, jsIndex bb 3⟩ } := by
  simp only [getSmartLogoPosition, adviseFromData, positionString, paddingJson,
    boundingBoxJson, jsGetField, hpos, hpad, hbb, htruthy, positionOrDefault,
    bind, Except.bind, decide_True, Bool.not_true, Bool.false_eq_true, if_false, if_true,
    show truthy (Json.num 0) = false from rfl]

/-- Witness for C10 at the concrete parsed response
`\x7b"padding": 0, "boundingBox": [1, 2, 3, 4]\x7d`. -/
theorem claim_C10_witness :
    lookupField [(("padding"), Json.num 0),
      (("boundingBox"), Json.arr [Json.num 1, Json.num 2, Json.num 3, Json.num 4])]
      ("position") = none ∧
    lookupField [(("padding"), Json.num 0),
      (("boundingBox"), Json.arr [Json.num 1, Json.num 2, Json.num 3, Json.num 4])]
      ("padding") = some (Json.num 0) ∧
    lookupField [(("padding"), Json.num 0),
      (("boundingBox"), Json.arr [Json.num 1, Json.num 2, Json.num 3, Json.num 4])]
      ("boundingBox") = some (Json.arr [Json.num 1, Json.num 2, Json.num 3, Json.num 4]) ∧
    truthy (Json.arr [Json.num 1, Json.num 2, Json.num 3, Json.num 4]) = true ∧
    getSmartLogoPosition (.requestOk (.parseOk (.obj
        [(("padding"), Json.num 0),
          (("boundingBox"), Json.arr [Json.num 1, Json.num 2, Json.num 3, Json.num 4])]))) =
      { position := "bottom-right", padding := Json.num 50,
        boundingBox := some ⟨some (Json.num 1), some (Json.num 2),
          some (Json.num 3), some (Json.num 4)⟩ } :=
  ⟨rfl, rfl, rfl, rfl,
    claim_C10 [(("padding"), Json.num 0),
      (("boundingBox"), Json.arr [Json.num 1, Json.num 2, Json.num 3, Json.num 4])]
      (Json.arr [Json.num 1, Json.num 2, Json.num 3, Json.num 4]) rfl rfl rfl rfl⟩

/-- C9: with a non-empty gallery and a brand logo set, but the ambient
`process.env.API_KEY` absent, `startProcessing` only raises the
configuration alert: item states are not initialised, the archive handle
and revocation ledger are untouched, and no item emits any pipeline
event. -/
theorem claim_C9 (s : AppState) (zipGen : Option String)
    (himg : s.images.length ≠ 0) (hlogo : strFalsy s.brandLogo = false) :
    (startProcessing none zipGen s).1.processStates = s.processStates ∧
    (startProcessing none zipGen s).1.zipUrl = s.zipUrl ∧
    (startProcessing none zipGen s).1.revoked = s.revoked ∧
    (startProcessing none zipGen s).2 = [] ∧
    (startProcessing none zipGen s).1.alerts = s.alerts ++ [apiKeyAlert] := by
  have h1 : decide (s.images.length = 0) = false := decide_eq_false himg
  refine ⟨?_, ?_, ?_, ?_, ?_⟩ <;>
    simp only [startProcessing, h1, hlogo, Bool.or_self, Bool.false_eq_true, if_false,
      show strFalsy none = true from rfl, if_true]

/-- Witness for C9: one gallery item and a logo present, key absent. -/
theorem claim_C9_witness :
    (AppState.mk [⟨"a.jpg", "blob:src0", fallbackPlacement, some ("d,P", "t0")⟩]
        (some ("LOGO")) 10 (some ("blob:oldzip")) [] false (-1) [] []).images.length ≠ 0 ∧
    strFalsy (AppState.mk [⟨"a.jpg", "blob:src0", fallbackPlacement, some ("d,P", "t0")⟩]
        (some ("LOGO")) 10 (some ("blob:oldzip")) [] false (-1) [] []).brandLogo = false ∧
    ((startProcessing none (some ("blob:z1"))
        (AppState.mk [⟨"a.jpg", "blob:src0", fallbackPlacement, some ("d,P", "t0")⟩]
          (some ("LOGO")) 10 (some ("blob:oldzip")) [] false (-1) [] [])).1.processStates = [] ∧
      (startProcessing none (some ("blob:z1"))
        (AppState.mk [⟨"a.jpg", "blob:src0", fallbackPlacement, some ("d,P", "t0")⟩]
          (some ("LOGO")) 10 (some ("blob:oldzip")) [] false (-1) [] [])).1.zipUrl =
        some ("blob:oldzip") ∧
      (startProcessing none (some ("blob:z1"))
        (AppState.mk [⟨"a.jpg", "blob:src0", fallbackPlacement, some ("d,P", "t0")⟩]
          (some ("LOGO")) 10 (some ("blob:oldzip")) [] false (-1) [] [])).1.revoked = [] ∧
      (startProcessing none (some ("blob:z1"))
        (AppState.mk [⟨"a.jpg", "blob:src0", fallbackPlacement, some ("d,P", "t0")⟩]
          (some ("LOGO")) 10 (some ("blob:oldzip")) [] false (-1) [] [])).2 = [] ∧
      (startProcessing none (some ("blob:z1"))
        (AppState.mk [⟨"a.jpg", "blob:src0", fallbackPlacement, some ("d,P", "t0")⟩]
          (some ("LOGO")) 10 (some ("blob:oldzip")) [] false (-1) [] [])).1.alerts =
        [] ++ [apiKeyAlert]) :=
  ⟨by decide, rfl,
    claim_C9 (AppState.mk [⟨"a.jpg", "blob:src0", fallbackPlacement, some ("d,P", "t0")⟩]
        (some ("LOGO")) 10 (some ("blob:oldzip")) [] false (-1) [] [])
      (some ("blob:z1")) (by decide) rfl⟩

/-! ### Trace structure of a run -/

/-- Every item block has at least its start and terminal events. -/
theorem itemEvents_two_le (B i : ℕ) (it : InputItem) :
    2 ≤ (itemEvents B i it).length := by
  cases h : itemOk it && yieldGuard i B <;> simp [itemEvents, h]

/-- The second event of an item block is the item's terminal event. -/
theorem itemEvents_getElem_one (B i : ℕ) (it : InputItem) :
    (itemEvents B i it)[1]? = some (.exit i (itemOk it)) := by
  cases h : itemOk it && yieldGuard i B <;> simp [itemEvents, h]

/-- A run segment on a non-empty item list starts with the first item's
start event. -/
theorem runAux_trace_zero (B i : ℕ) (it : InputItem) (rest : List InputItem)
    (z : List (String × String)) :
    (runAux B i (it :: rest) z).trace[0]? = some (.enter i) := by
  cases hc : it.comp <;> simp [runAux, hc, itemEvents]

/-- The terminal events of a run segment beginning at item `i` are exactly
the item indices, in input order. -/
theorem trace_exits (B : ℕ) (l : List InputItem) :
    ∀ (i : ℕ) (z : List (String × String)),
      (runAux B i l z).trace.filterMap exitIdx = List.range' i l.length := by
  induction l with
  | nil => intro i z; rfl
  | cons it rest ih =>
      intro i z
      have hblock : (itemEvents B i it).filterMap exitIdx = [i] := by
        cases h : itemOk it && yieldGuard i B <;> simp [itemEvents, exitIdx, h]
      simp only [runAux, List.filterMap_append, hblock, ih, List.length_cons,
        List.range'_succ, List.singleton_append]

/-- The start events of a run segment beginning at item `i` are exactly
the item indices, in input order. -/
theorem trace_enters (B : ℕ) (l : List InputItem) :
    ∀ (i : ℕ) (z : List (String × String)),
      (runAux B i l z).trace.filterMap enterIdx = List.range' i l.length := by
  induction l with
  | nil => intro i z; rfl
  | cons it rest ih =>
      intro i z
      have hblock : (itemEvents B i it).filterMap enterIdx = [i] := by
        cases h : itemOk it && yieldGuard i B <;> simp [itemEvents, enterIdx, h]
      simp only [runAux, List.filterMap_append, hblock, ih, List.length_cons,
        List.range'_succ, List.singleton_append]

/-- In a run segment beginning at item `j`, the terminal event of item
`j + i` occurs strictly before the start event of item `j + i + 1`. -/
theorem exit_then_enter (B : ℕ) (l : List InputItem) :
    ∀ (j i : ℕ) (z : List (String × String)), i + 1 < l.length →
      ∃ (a b : ℕ) (ok : Bool), a < b ∧
        (runAux B j l z).trace[a]? = some (Event.exit (j + i) ok) ∧
        (runAux B j l z).trace[b]? = some (Event.enter (j + i + 1)) := by
  induction l with
  | nil => intro j i z h; simp at h
  | cons it rest ih =>
      intro j i z h
      cases i with
      | zero =>
          cases rest with
          | nil => simp at h
          | cons it' rest' =>
              cases hc : it.comp with
              | none =>
                  refine ⟨1, (itemEvents B j it).length, itemOk it, ?_, ?_, ?_⟩
                  · exact lt_of_lt_of_le one_lt_two (itemEvents_two_le B j it)
                  · simp only [runAux, hc]
                    rw [List.getElem?_append_left
                      (lt_of_lt_of_le one_lt_two (itemEvents_two_le B j it))]
                    simpa using itemEvents_getElem_one B j it
                  · simp only [runAux, hc]
                    rw [List.getElem?_append_right (le_refl (itemEvents B j it).length)]
                    simpa using runAux_trace_zero B (j + 1) it' rest' z
              | some v =>
                  refine ⟨1, (itemEvents B j it).length, itemOk it, ?_, ?_, ?_⟩
                  · exact lt_of_lt_of_le one_lt_two (itemEvents_two_le B j it)
                  · simp only [runAux, hc]
                    rw [List.getElem?_append_left
                      (lt_of_lt_of_le one_lt_two (itemEvents_two_le B j it))]
                    simpa using itemEvents_getElem_one B j it
                  · simp only [runAux, hc]
                    rw [List.getElem?_append_right (le_refl (itemEvents B j it).length)]
                    simpa using
                      runAux_trace_zero B (j + 1) it' rest'
                        (zipFile z (archiveName it.name) (base64Part v.1))
      | succ i' =>
          have h' : i' + 1 < rest.length := by
            simpa using Nat.lt_of_succ_lt_succ h
          cases hc : it.comp with
          | none =>
              obtain ⟨a, b, ok, hab, ha, hb⟩ := ih (j + 1) i' z h'
              refine ⟨(itemEvents B j it).length + a, (itemEvents B j it).length + b, ok,
                Nat.add_lt_add_left hab _, ?_, ?_⟩
              · simp only [runAux, hc]
                rw [List.getElem?_append_right (Nat.le_add_right _ _),
                  Nat.add_sub_cancel_left]
                have hidx : j + 1 + i' = j + (i' + 1) := by omega
                rw [hidx] at ha
                exact ha
              · simp only [runAux, hc]
                rw [List.getElem?_append_right (Nat.le_add_right _ _),
                  Nat.add_sub_cancel_left]
                have hidx : j + 1 + i' + 1 = j + (i' + 1) + 1 := by omega
                rw [hidx] at hb
                exact hb
          | some v =>
              obtain ⟨a, b, ok, hab, ha, hb⟩ :=
                ih (j + 1) i' (zipFile z (archiveName it.name) (base64Part v.1)) h'
              refine ⟨(itemEvents B j it).length + a, (itemEvents B j it).length + b, ok,
                Nat.add_lt_add_left hab _, ?_, ?_⟩
              · simp only [runAux, hc]
                rw [List.getElem?_append_right (Nat.le_add_right _ _),
                  Nat.add_sub_cancel_left]
                have hidx : j + 1 + i' = j + (i' + 1) := by omega
                rw [hidx] at ha
                exact ha
              · simp only [runAux, hc]
                rw [List.getElem?_append_right (Nat.le_add_right _ _),
                  Nat.add_sub_cancel_left]
                have hidx : j + 1 + i' + 1 = j + (i' + 1) + 1 := by omega
                rw [hidx] at hb
                exact hb

/-- C1: the run is strictly sequential in input order — the start events
and the terminal events of a run each occur exactly once per item, in
submission order (`range N`), and for every `i`, item `i`'s terminal event
occurs strictly before item `i + 1`'s start event. -/
theorem claim_C1 (B : ℕ) (items : List InputItem) :
    (runTrace B items).filterMap exitIdx = List.range items.length ∧
    (runTrace B items).filterMap enterIdx = List.range items.length ∧
    (∀ i, i + 1 < items.length →
      ∃ (a b : ℕ) (ok : Bool), a < b ∧
        (runTrace B items)[a]? = some (Event.exit i ok) ∧
        (runTrace B items)[b]? = some (Event.enter (i + 1))) := by
  refine ⟨?_, ?_, ?_⟩
  · rw [List.range_eq_range']
    exact trace_exits B items 0 []
  · rw [List.range_eq_range']
    exact trace_enters B items 0 []
  · intro i hi
    have := exit_then_enter B items 0 i [] hi
    simpa using this

/-- Witness for C1 on a concrete two-item gallery. -/
theorem claim_C1_witness :
    0 + 1 < ([⟨"a.jpg", "blob:s0", fallbackPlacement, some ("d,P", "t0")⟩,
      ⟨"b.jpg", "blob:s1", fallbackPlacement, none⟩] : List InputItem).length ∧
    (∃ (a b : ℕ) (ok : Bool), a < b ∧
      (runTrace 10 [⟨"a.jpg", "blob:s0", fallbackPlacement, some ("d,P", "t0")⟩,
        ⟨"b.jpg", "blob:s1", fallbackPlacement, none⟩])[a]? = some (Event.exit 0 ok) ∧
      (runTrace 10 [⟨"a.jpg", "blob:s0", fallbackPlacement, some ("d,P", "t0")⟩,
        ⟨"b.jpg", "blob:s1", fallbackPlacement, none⟩])[b]? = some (Event.enter (0 + 1))) :=
  ⟨by decide,
    (claim_C1 10 [⟨"a.jpg", "blob:s0", fallbackPlacement, some ("d,P", "t0")⟩,
      ⟨"b.jpg", "blob:s1", fallbackPlacement, none⟩]).2.2 0 (by decide)⟩

/-! ### Final item states -/

/-- A run produces exactly one final state per gallery item. -/
theorem runAux_states_length (B : ℕ) (l : List InputItem) :
    ∀ (i : ℕ) (z : List (String × String)),
      (runAux B i l z).states.length = l.length := by
  induction l with
  | nil => intro i z; rfl
  | cons it rest ih =>
      intro i z
      cases hc : it.comp <;> simp [runAux, hc, ih]

/-- The final state of the item at position `j` of a run segment starting
at item `i` is its `finalItemState`. -/
theorem runAux_states_getElem (B : ℕ) (l : List InputItem) :
    ∀ (i : ℕ) (z : List (String × String)) (j : ℕ) (it : InputItem),
      l[j]? = some it →
      (runAux B i l z).states[j]? = some (finalItemState (i + j) it) := by
  induction l with
  | nil => intro i z j it h; simp at h
  | cons hd rest ih =>
      intro i z j it h
      cases j with
      | zero =>
          simp only [List.getElem?_cons_zero, Option.some.injEq] at h
          subst h
          cases hc : hd.comp <;> simp [runAux, hc]
      | succ j' =>
          simp only [List.getElem?_cons_succ] at h
          cases hc : hd.comp with
          | none =>
              have := ih (i + 1) z j' it h
              simpa [runAux, hc, Nat.add_assoc, Nat.add_comm 1 j'] using this
          | some v =>
              have := ih (i + 1) (zipFile z (archiveName hd.name) (base64Part v.1)) j' it h
              simpa [runAux, hc, Nat.add_assoc, Nat.add_comm 1 j'] using this

/-- C2: every per-item failure is absorbed at the item boundary — the item
ends in `error` with reason `Skipped` and progress 0 — and every item of
the gallery, before or after a failing one, still reaches a terminal state
(`completed` or `error`): one item's failure never aborts the run. -/
theorem claim_C2 (B : ℕ) (items : List InputItem) :
    (runAux B 0 items []).states.length = items.length ∧
    ∀ (j : ℕ) (it : InputItem), items[j]? = some it →
      (runAux B 0 items []).states[j]? = some (finalItemState j it) ∧
      ((finalItemState j it).status = .completed ∨
        (finalItemState j it).status = .error) ∧
      (it.comp = none →
        (finalItemState j it).status = .error ∧
        (finalItemState j it).errorMsg = some ("Skipped") ∧
        (finalItemState j it).progress = 0) ∧
      (it.comp ≠ none →
        (finalItemState j it).status = .completed ∧
        (finalItemState j it).progress = 100) := by
  refine ⟨runAux_states_length B items 0 [], ?_⟩
  intro j it h
  refine ⟨by simpa using runAux_states_getElem B items 0 [] j it h, ?_, ?_, ?_⟩
  · cases hc : it.comp <;> simp [finalItemState, hc]
  · intro hc; simp [finalItemState, hc]
  · intro hc
    cases hcomp : it.comp with
    | none => exact absurd hcomp hc
    | some v => simp [finalItemState, hcomp]

/-- Witness for C2: a two-item gallery whose first item fails; the second
is still processed and completes. -/
theorem claim_C2_witness :
    (([⟨"a.jpg", "blob:s0", fallbackPlacement, none⟩,
        ⟨"b.jpg", "blob:s1", fallbackPlacement, some ("d,P", "t1")⟩] :
      List InputItem)[0]? = some ⟨"a.jpg", "blob:s0", fallbackPlacement, none⟩) ∧
    ((runAux 10 0 [⟨"a.jpg", "blob:s0", fallbackPlacement, none⟩,
        ⟨"b.jpg", "blob:s1", fallbackPlacement, some ("d,P", "t1")⟩] []).states[0]? =
        some (finalItemState 0 ⟨"a.jpg", "blob:s0", fallbackPlacement, none⟩) ∧
      ((finalItemState 0 (⟨"a.jpg", "blob:s0", fallbackPlacement, none⟩ : InputItem)).status =
          .completed ∨
        (finalItemState 0 (⟨"a.jpg", "blob:s0", fallbackPlacement, none⟩ : InputItem)).status =
          .error) ∧
      ((⟨"a.jpg", "blob:s0", fallbackPlacement, none⟩ : InputItem).comp = none →
        (finalItemState 0 (⟨"a.jpg", "blob:s0", fallbackPlacement, none⟩ : InputItem)).status =
          .error ∧
        (finalItemState 0 (⟨"a.jpg", "blob:s0", fallbackPlacement, none⟩ : InputItem)).errorMsg =
          some ("Skipped") ∧
        (finalItemState 0 (⟨"a.jpg", "blob:s0", fallbackPlacement, none⟩ : InputItem)).progress =
          0) ∧
      ((⟨"a.jpg", "blob:s0", fallbackPlacement, none⟩ : InputItem).comp ≠ none →
        (finalItemState 0 (⟨"a.jpg", "blob:s0", fallbackPlacement, none⟩ : InputItem)).status =
          .completed ∧
        (finalItemState 0 (⟨"a.jpg", "blob:s0", fallbackPlacement, none⟩ : InputItem)).progress =
          100)) :=
  ⟨rfl,
    (claim_C2 10 [⟨"a.jpg", "blob:s0", fallbackPlacement, none⟩,
      ⟨"b.jpg", "blob:s1", fallbackPlacement, some ("d,P", "t1")⟩]).2 0
      ⟨"a.jpg", "blob:s0", fallbackPlacement, none⟩ rfl⟩

/-! ### Yield pacing -/

/-- The only terminal event inside an item's block is its own. -/
theorem exit_mem_itemEvents (B j m : ℕ) (ok : Bool) (it : InputItem)
    (h : Event.exit m ok ∈ itemEvents B j it) : m = j := by
  cases hog : itemOk it && yieldGuard j B <;> simp [itemEvents, hog] at h <;> omega

/-- Terminal events in a run segment starting at item `j` have index ≥ `j`. -/
theorem trace_exit_ge (B : ℕ) (l : List InputItem) :
    ∀ (j : ℕ) (z : List (String × String)) (m : ℕ) (ok : Bool),
      Event.exit m ok ∈ (runAux B j l z).trace → j ≤ m := by
  induction l with
  | nil => intro j z m ok h; simp [runAux] at h
  | cons hd rest ih =>
      intro j z m ok h
      cases hc : hd.comp with
      | none =>
          simp only [runAux, hc, List.mem_append] at h
          rcases h with hb | hr
          · have := exit_mem_itemEvents B j m ok hd hb
            omega
          · have := ih (j + 1) z m ok hr
            omega
      | some v =>
          simp only [runAux, hc, List.mem_append] at h
          rcases h with hb | hr
          · have := exit_mem_itemEvents B j m ok hd hb
            omega
          · have := ih (j + 1) (zipFile z (archiveName hd.name) (base64Part v.1)) m ok hr
            omega

/-- A trace containing no terminal event of item `i` never yields after
item `i`. -/
theorem yieldAfter_false (tr : List Event) (i : ℕ)
    (h : ∀ ok, Event.exit i ok ∉ tr) : yieldAfter tr i = false := by
  induction tr with
  | nil => rfl
  | cons a rest ih =>
      cases rest with
      | nil => rfl
      | cons b rest' =>
          have ha : isExitOf a i = false := by
            cases a with
            | exit j ok =>
                simp only [isExitOf, decide_eq_false_iff_not]
                intro hji
                subst hji
                exact h ok (List.mem_cons_self _ _)
            | enter j => rfl
            | yieldEv => rfl
          rw [yieldAfter, ha]
          simpa using ih (fun ok hm => h ok (List.mem_cons_of_mem a hm))

/-- A prefix containing no terminal event of item `i` can be dropped when
scanning for a yield after item `i`. -/
theorem yieldAfter_append (xs ys : List Event) (i : ℕ)
    (hx : ∀ ok, Event.exit i ok ∉ xs) :
    yieldAfter (xs ++ ys) i = yieldAfter ys i := by
  induction xs with
  | nil => rfl
  | cons a xs' ih =>
      have ha : isExitOf a i = false := by
        cases a with
        | exit j ok =>
            simp only [isExitOf, decide_eq_false_iff_not]
            intro hji
            subst hji
            exact hx ok (List.mem_cons_self _ _)
        | enter j => rfl
        | yieldEv => rfl
      have hx' : ∀ ok, Event.exit i ok ∉ xs' :=
        fun ok hm => hx ok (List.mem_cons_of_mem a hm)
      cases hxy : xs' ++ ys with
      | nil =>
          rcases List.append_eq_nil.mp hxy with ⟨hxs, hys⟩
          subst hxs
          subst hys
          rfl
      | cons b rest =>
          rw [List.cons_append, hxy, yieldAfter, ha, ← hxy, ih hx']
          simp

/-- After a terminal event of item `i` followed by a start event, with no
further terminal event of item `i`, no yield follows item `i`. -/
theorem yieldAfter_exit_cons_enter (i m : ℕ) (ok : Bool) (tr : List Event)
    (hnot : ∀ ok2, Event.exit i ok2 ∉ Event.enter m :: tr) :
    yieldAfter (Event.exit i ok :: Event.enter m :: tr) i = false := by
  rw [yieldAfter]
  have h2 := yieldAfter_false (Event.enter m :: tr) i hnot
  simp [isYield, h2]

/-- A list whose first optional element is `a` is a cons on `a`. -/
theorem cons_of_getElem_zero {α : Type} (tr : List α) (a : α) (h : tr[0]? = some a) :
    ∃ tl, tr = a :: tl := by
  cases tr with
  | nil => simp at h
  | cons b tl =>
      simp only [List.getElem?_cons_zero, Option.some.injEq] at h
      exact ⟨tl, by rw [h]⟩

/-- A run segment's trace is empty or begins with a start event. -/
theorem runAux_trace_shape (B i : ℕ) (l : List InputItem) (z : List (String × String)) :
    (runAux B i l z).trace = [] ∨
      ∃ m tl, (runAux B i l z).trace = Event.enter m :: tl := by
  cases l with
  | nil => exact Or.inl rfl
  | cons it rest =>
      obtain ⟨tl, htl⟩ := cons_of_getElem_zero _ _ (runAux_trace_zero B i it rest z)
      exact Or.inr ⟨i, tl, htl⟩

/-- After the start and terminal events of item `j`, a tail with no further
terminal event of item `j` that is empty or begins with a start event
produces no yield attributed to item `j`. -/
theorem yieldAfter_enter_exit (j : ℕ) (ok : Bool) (tr : List Event)
    (hnot : ∀ ok2, Event.exit j ok2 ∉ tr)
    (hhead : tr = [] ∨ ∃ m tl, tr = Event.enter m :: tl) :
    yieldAfter (Event.enter j :: Event.exit j ok :: tr) j = false := by
  rcases hhead with rfl | ⟨m, tl, rfl⟩
  · rfl
  · rw [yieldAfter]
    have h2 := yieldAfter_exit_cons_enter j m ok tl hnot
    simp [isExitOf, isYield, h2]

theorem yieldAfter_run_head (B j : ℕ) (hd : InputItem) (rest : List InputItem)
    (z : List (String × String)) :
    yieldAfter (runAux B j (hd :: rest) z).trace j = (itemOk hd && yieldGuard j B) := by
  have hnotin : ∀ (z' : List (String × String)) (ok : Bool),
      Event.exit j ok ∉ (runAux B (j + 1) rest z').trace := by
    intro z' ok hm
    have := trace_exit_ge B rest (j + 1) z' j ok hm
    omega
  cases hog : itemOk hd && yieldGuard j B with
  | true =>
      have hok : itemOk hd = true := by
        cases h : itemOk hd
        · rw [h] at hog; simp at hog
        · rfl
      obtain ⟨v, hc⟩ : ∃ v, hd.comp = some v := by
        cases hcc : hd.comp
        · simp [itemOk, hcc] at hok
        · exact ⟨_, rfl⟩
      have htr : (runAux B j (hd :: rest) z).trace =
          Event.enter j :: Event.exit j (itemOk hd) :: Event.yieldEv ::
            (runAux B (j + 1) rest
              (zipFile z (archiveName hd.name) (base64Part v.1))).trace := by
        simp only [runAux, hc, itemEvents, hog, if_true, List.cons_append,
          List.nil_append]
      rw [htr, yieldAfter]
      have hstep : yieldAfter (Event.exit j (itemOk hd) :: Event.yieldEv ::
          (runAux B (j + 1) rest
            (zipFile z (archiveName hd.name) (base64Part v.1))).trace) j = true := by
        rw [yieldAfter]
        simp [isExitOf, isYield]
      simp [isExitOf, isYield, hstep]
  | false =>
      have hblock : itemEvents B j hd = [Event.enter j, Event.exit j (itemOk hd)] := by
        simp [itemEvents, hog]
      cases hc : hd.comp with
      | none =>
          have htr : (runAux B j (hd :: rest) z).trace =
              Event.enter j :: Event.exit j (itemOk hd) ::
                (runAux B (j + 1) rest z).trace := by
            simp only [runAux, hc, hblock, List.cons_append, List.nil_append]
          rw [htr]
          exact yieldAfter_enter_exit j (itemOk hd) _ (hnotin z)
            (runAux_trace_shape B (j + 1) rest z)
      | some v =>
          have htr : (runAux B j (hd :: rest) z).trace =
              Event.enter j :: Event.exit j (itemOk hd) ::
                (runAux B (j + 1) rest
                  (zipFile z (archiveName hd.name) (base64Part v.1))).trace := by
            simp only [runAux, hc, hblock, List.cons_append, List.nil_append]
          rw [htr]
          exact yieldAfter_enter_exit j (itemOk hd) _
            (hnotin (zipFile z (archiveName hd.name) (base64Part v.1)))
            (runAux_trace_shape B (j + 1) rest
              (zipFile z (archiveName hd.name) (base64Part v.1)))

/-- Item `j + k` of a run segment yields exactly when it completed and its
index passes the guard. -/
theorem yieldAfter_runAux (B : ℕ) (l : List InputItem) :
    ∀ (j k : ℕ) (z : List (String × String)) (it : InputItem), l[k]? = some it →
      yieldAfter (runAux B j l z).trace (j + k) =
        (itemOk it && yieldGuard (j + k) B) := by
  induction l with
  | nil => intro j k z it h; simp at h
  | cons hd rest ih =>
      intro j k z it h
      cases k with
      | zero =>
          simp only [List.getElem?_cons_zero, Option.some.injEq] at h
          subst h
          simpa using yieldAfter_run_head B j hd rest z
      | succ k' =>
          simp only [List.getElem?_cons_succ] at h
          have hnotin : ∀ ok, Event.exit (j + (k' + 1)) ok ∉ itemEvents B j hd := by
            intro ok hm
            have := exit_mem_itemEvents B j (j + (k' + 1)) ok hd hm
            omega
          have hidx : j + 1 + k' = j + (k' + 1) := by omega
          cases hc : hd.comp with
          | none =>
              have hih := ih (j + 1) k' z it h
              rw [hidx] at hih
              simp only [runAux, hc]
              rw [yieldAfter_append _ _ _ hnotin]
              exact hih
          | some v =>
              have hih := ih (j + 1) k'
                (zipFile z (archiveName hd.name) (base64Part v.1)) it h
              rw [hidx] at hih
              simp only [runAux, hc]
              rw [yieldAfter_append _ _ _ hnotin]
              exact hih

/-- C8 as stated is false: with `batchSize = 2` and two successfully
completed items, the loop guard `i % batchSize === 0` (with 0-based `i`)
yields after the first item — 1 is not a multiple of 2 — and does not
yield after the second item, though 2 is. -/
theorem claim_C8_counterexample :
    yieldAfter (runTrace 2 [⟨"a.jpg", "blob:s0", fallbackPlacement, some ("d,P", "t0")⟩,
      ⟨"b.jpg", "blob:s1", fallbackPlacement, some ("d,P", "t1")⟩]) 0 = true ∧
    ¬ (2 ∣ 1) ∧
    yieldAfter (runTrace 2 [⟨"a.jpg", "blob:s0", fallbackPlacement, some ("d,P", "t0")⟩,
      ⟨"b.jpg", "blob:s1", fallbackPlacement, some ("d,P", "t1")⟩]) 1 = false ∧
    2 ∣ 2 := by
  refine ⟨by decide, by decide, by decide, by decide⟩

/-- C8 amended: during a run, a yield occurs after item `k` (0-based)
exactly when item `k` completed successfully and `k % batchSize = 0` under
JavaScript semantics (so never when `batchSize = 0`, where `k % 0` is
`NaN`) — i.e. after the 1st, `(B+1)`-th, `(2B+1)`-th, … successful items,
not after every `B`-th item. -/
theorem claim_C8 (B : ℕ) (items : List InputItem) (k : ℕ) (it : InputItem)
    (h : items[k]? = some it) :
    yieldAfter (runTrace B items) k = (itemOk it && yieldGuard k B) := by
  simpa using yieldAfter_runAux B items 0 k [] it h

/-- Witness for C8 on a concrete gallery: item 2 (0-based index 2) of a
five-item run with `batchSize = 2` completed and yields. -/
theorem claim_C8_witness :
    ([⟨"a.jpg", "blob:s0", fallbackPlacement, some ("d,P", "t0")⟩,
      ⟨"b.jpg", "blob:s1", fallbackPlacement, none⟩,
      ⟨"c.jpg", "blob:s2", fallbackPlacement, some ("d,P", "t2")⟩] :
        List InputItem)[2]? =
      some ⟨"c.jpg", "blob:s2", fallbackPlacement, some ("d,P", "t2")⟩ ∧
    yieldAfter (runTrace 2 [⟨"a.jpg", "blob:s0", fallbackPlacement, some ("d,P", "t0")⟩,
        ⟨"b.jpg", "blob:s1", fallbackPlacement, none⟩,
        ⟨"c.jpg", "blob:s2", fallbackPlacement, some ("d,P", "t2")⟩]) 2 =
      (itemOk ⟨"c.jpg", "blob:s2", fallbackPlacement, some ("d,P", "t2")⟩ &&
        yieldGuard 2 2) :=
  ⟨rfl,
    claim_C8 2 [⟨"a.jpg", "blob:s0", fallbackPlacement, some ("d,P", "t0")⟩,
      ⟨"b.jpg", "blob:s1", fallbackPlacement, none⟩,
      ⟨"c.jpg", "blob:s2", fallbackPlacement, some ("d,P", "t2")⟩] 2
      ⟨"c.jpg", "blob:s2", fallbackPlacement, some ("d,P", "t2")⟩ rfl⟩

/-! ### Archive contents -/

/-- `zip.file` on a fresh name appends a new entry. -/
theorem zipFile_fresh (z : List (String × String)) (name content : String)
    (h : name ∉ z.map Prod.fst) :
    zipFile z name content = z ++ [(name, content)] := by
  have hc : ¬ (z.any (fun e => e.1 = name) = true) := by
    simp only [List.any_eq_true, decide_eq_true_eq]
    rintro ⟨e, hm, he⟩
    exact h (he ▸ List.mem_map_of_mem Prod.fst hm)
  rw [zipFile, if_neg hc]

/-- The names of the completed entries are the completed archive names. -/
theorem completedEntries_map_fst (items : List InputItem) :
    (completedEntries items).map Prod.fst = completedArchiveNames items := by
  induction items with
  | nil => rfl
  | cons it rest ih =>
      cases hc : it.comp with
      | none =>
          rw [show completedEntries (it :: rest) = completedEntries rest from by
                simp [completedEntries, hc],
            show completedArchiveNames (it :: rest) = completedArchiveNames rest from by
              simp [completedArchiveNames, itemOk, hc, List.filter_cons]]
          exact ih
      | some v =>
          rw [show completedEntries (it :: rest) =
                (archiveName it.name, base64Part v.1) :: completedEntries rest from by
              simp [completedEntries, hc],
            show completedArchiveNames (it :: rest) =
                archiveName it.name :: completedArchiveNames rest from by
              simp [completedArchiveNames, itemOk, hc, List.filter_cons]]
          simp [ih]

/-- When no archive-name collision occurs (among the completed items, and
with the sink's existing entries), the run appends exactly one entry per
completed item. -/
theorem runAux_zip (B : ℕ) (l : List InputItem) :
    ∀ (i : ℕ) (z : List (String × String)),
      ((z.map Prod.fst) ++ completedArchiveNames l).Nodup →
      (runAux B i l z).zip = z ++ completedEntries l := by
  induction l with
  | nil => intro i z h; simp [runAux, completedEntries]
  | cons hd rest ih =>
      intro i z h
      cases hc : hd.comp with
      | none =>
          have hnames : completedArchiveNames (hd :: rest) = completedArchiveNames rest := by
            simp [completedArchiveNames, itemOk, hc, List.filter_cons]
          have hent : completedEntries (hd :: rest) = completedEntries rest := by
            simp [completedEntries, hc]
          rw [hnames] at h
          simp only [runAux, hc, hent]
          exact ih (i + 1) z h
      | some v =>
          have hnames : completedArchiveNames (hd :: rest) =
              archiveName hd.name :: completedArchiveNames rest := by
            simp [completedArchiveNames, itemOk, hc, List.filter_cons]
          have hent : completedEntries (hd :: rest) =
              (archiveName hd.name, base64Part v.1) :: completedEntries rest := by
            simp [completedEntries, hc]
          rw [hnames] at h
          have hfresh : archiveName hd.name ∉ z.map Prod.fst := by
            intro hm
            have := (List.nodup_append.mp h).2.2
            exact this hm (List.mem_cons_self _ _)
          have hz' := zipFile_fresh z (archiveName hd.name) (base64Part v.1) hfresh
          have h' : (((z ++ [(archiveName hd.name, base64Part v.1)]).map Prod.fst) ++
              completedArchiveNames rest).Nodup := by
            rw [List.map_append]
            simpa [List.append_assoc] using h
          simp only [runAux, hc, hz', hent]
          rw [ih (i + 1) _ h', List.append_assoc]
          rfl

/-- C6 as stated is false when two completed items share a name stem: with
gallery `[a.jpg, a.png]`, both completing, `a.png` overwrites `a.jpg`'s
entry (`zip.file` replaces same-named entries) and the archive holds one
entry while two items completed. -/
theorem claim_C6_counterexample :
    ((runAux 10 0 [⟨"a.jpg", "blob:s0", fallbackPlacement, some ("d,P0", "t0")⟩,
        ⟨"a.png", "blob:s1", fallbackPlacement, some ("d,P1", "t1")⟩] []).zip).length = 1 ∧
    (([⟨"a.jpg", "blob:s0", fallbackPlacement, some ("d,P0", "t0")⟩,
        ⟨"a.png", "blob:s1", fallbackPlacement, some ("d,P1", "t1")⟩] :
      List InputItem).filter (fun it => itemOk it)).length = 2 ∧
    ((runAux 10 0 [⟨"a.jpg", "blob:s0", fallbackPlacement, some ("d,P0", "t0")⟩,
        ⟨"a.png", "blob:s1", fallbackPlacement, some ("d,P1", "t1")⟩] []).zip) =
      [("a_1x1_HD.jpg", "P1")] := by
  refine ⟨?_, ?_, ?_⟩ <;> rfl

/-- C6 amended: provided the derived archive names of the completed items
are pairwise distinct (e.g. all stems distinct), the finalized archive
holds exactly one entry per completed item, under
`stem + "_1x1_HD" + ".jpg"`, in run order — no extra and no missing
entries; when names collide, a later completed item silently overwrites the
earlier entry. -/
theorem claim_C6 (B : ℕ) (items : List InputItem)
    (hnodup : (completedArchiveNames items).Nodup) :
    (runAux B 0 items []).zip = completedEntries items ∧
    (runAux B 0 items []).zip.map Prod.fst = completedArchiveNames items := by
  have hz := runAux_zip B items 0 [] (by simpa using hnodup)
  constructor
  · simpa using hz
  · rw [hz]
    simpa using completedEntries_map_fst items

/-- Witness for C6 on a two-item gallery with distinct stems. -/
theorem claim_C6_witness :
    (completedArchiveNames [⟨"a.jpg", "blob:s0", fallbackPlacement, some ("d,P0", "t0")⟩,
      ⟨"b.png", "blob:s1", fallbackPlacement, some ("d,P1", "t1")⟩]).Nodup ∧
    ((runAux 10 0 [⟨"a.jpg", "blob:s0", fallbackPlacement, some ("d,P0", "t0")⟩,
        ⟨"b.png", "blob:s1", fallbackPlacement, some ("d,P1", "t1")⟩] []).zip =
      completedEntries [⟨"a.jpg", "blob:s0", fallbackPlacement, some ("d,P0", "t0")⟩,
        ⟨"b.png", "blob:s1", fallbackPlacement, some ("d,P1", "t1")⟩] ∧
    (runAux 10 0 [⟨"a.jpg", "blob:s0", fallbackPlacement, some ("d,P0", "t0")⟩,
        ⟨"b.png", "blob:s1", fallbackPlacement, some ("d,P1", "t1")⟩] []).zip.map Prod.fst =
      completedArchiveNames [⟨"a.jpg", "blob:s0", fallbackPlacement, some ("d,P0", "t0")⟩,
        ⟨"b.png", "blob:s1", fallbackPlacement, some ("d,P1", "t1")⟩]) :=
  ⟨by decide,
    claim_C6 10 [⟨"a.jpg", "blob:s0", fallbackPlacement, some ("d,P0", "t0")⟩,
      ⟨"b.png", "blob:s1", fallbackPlacement, some ("d,P1", "t1")⟩] (by decide)⟩

/-! ### Archive-handle release across runs -/

/-- The run loop revokes only the per-item source object URLs. -/
theorem runAux_revoked_subset (B : ℕ) (l : List InputItem) :
    ∀ (i : ℕ) (z : List (String × String)) (u : String),
      u ∈ (runAux B i l z).revokedSrc → u ∈ l.map (fun it => it.sourceUrl) := by
  induction l with
  | nil => intro i z u h; simp [runAux] at h
  | cons hd rest ih =>
      intro i z u h
      cases hc : hd.comp with
      | none =>
          simp only [runAux, hc, List.nil_append] at h
          exact List.mem_cons_of_mem _ (ih (i + 1) z u h)
      | some v =>
          simp only [runAux, hc, List.singleton_append, List.mem_cons] at h
          rcases h with rfl | h
          · exact List.mem_cons_self _ _
          · exact List.mem_cons_of_mem _
              (ih (i + 1) (zipFile z (archiveName hd.name) (base64Part v.1)) u h)

/-- C7 is violated by the code: when a run starts while a previous run's
archive handle `u` exists, `startProcessing` replaces the handle
(`setZipUrl(null)` and later the new URL) without ever calling
`URL.revokeObjectURL(u)` — the run only revokes the per-item source URLs,
which are fresh object URLs distinct from `u` — so the blob behind `u`
leaks.  By contrast `clearAll` does release the handle, which is the
claimed (and specified) behaviour. -/
theorem claim_C7 (s : AppState) (apiKey zipGen : Option String) (u : String)
    (hzip : s.zipUrl = some u)
    (himg : s.images.length ≠ 0) (hlogo : strFalsy s.brandLogo = false)
    (hkey : strFalsy apiKey = false)
    (hnotold : u ∉ s.revoked)
    (hfresh : u ∉ s.images.map (fun it => it.sourceUrl)) :
    (startProcessing apiKey zipGen s).1.zipUrl = zipGen ∧
    u ∉ (startProcessing apiKey zipGen s).1.revoked ∧
    u ∈ (clearAll s).revoked := by
  have h1 : decide (s.images.length = 0) = false := decide_eq_false himg
  refine ⟨?_, ?_, ?_⟩
  · simp only [startProcessing, h1, hlogo, hkey, Bool.or_self, Bool.false_eq_true,
      if_false]
  · simp only [startProcessing, h1, hlogo, hkey, Bool.or_self, Bool.false_eq_true,
      if_false]
    intro hm
    rcases List.mem_append.mp hm with hold | hnew
    · exact hnotold hold
    · exact hfresh (runAux_revoked_subset s.batchSize s.images 0 [] u hnew)
  · simp only [clearAll, hzip]
    exact List.mem_append.mpr (Or.inr (List.mem_cons_self _ _))

/-- Witness for C7: a second run started while the first run's archive
handle `blob:old` is still live. -/
theorem claim_C7_witness :
    (AppState.mk [⟨"a.jpg", "blob:s0", fallbackPlacement, some ("d,P", "t0")⟩]
        (some ("LOGO")) 10 (some ("blob:old")) [] false (-1) [] []).zipUrl =
      some ("blob:old") ∧
    ((startProcessing (some ("K")) (some ("blob:new"))
        (AppState.mk [⟨"a.jpg", "blob:s0", fallbackPlacement, some ("d,P", "t0")⟩]
          (some ("LOGO")) 10 (some ("blob:old")) [] false (-1) [] [])).1.zipUrl =
        some ("blob:new") ∧
      "blob:old" ∉ (startProcessing (some ("K")) (some ("blob:new"))
        (AppState.mk [⟨"a.jpg", "blob:s0", fallbackPlacement, some ("d,P", "t0")⟩]
          (some ("LOGO")) 10 (some ("blob:old")) [] false (-1) [] [])).1.revoked ∧
      "blob:old" ∈ (clearAll
        (AppState.mk [⟨"a.jpg", "blob:s0", fallbackPlacement, some ("d,P", "t0")⟩]
          (some ("LOGO")) 10 (some ("blob:old")) [] false (-1) [] [])).revoked) :=
  ⟨rfl,
    claim_C7 (AppState.mk [⟨"a.jpg", "blob:s0", fallbackPlacement, some ("d,P", "t0")⟩]
        (some ("LOGO")) 10 (some ("blob:old")) [] false (-1) [] [])
      (some ("K")) (some ("blob:new")) "blob:old" rfl (by decide) rfl rfl
      (by decide) (by decide)⟩

end Bulk
